import Mathlib

/-!
# Verification of the Cute Framework ECS (`cute_ecs.h`)

This file embeds the entity–component–system runtime of the Cute Framework
and proves properties of its specification against that embedding.

The repository ships only the public header `src/include/cute_ecs.h`
(function declarations plus the two inline equality functions); the
implementation translation unit is not part of the source tree here.
Consequently the behavioural definitions below are modelled from the
specification document (each such definition's doc comment starts with
`Modelled from the spec:`), while `cf_entity_equals`, `cf_world_equals`,
`CF_INVALID_ENTITY` and `CF_INVALID_WORLD` are translated directly from
the header source.
-/

set_option autoImplicit false

namespace CuteECS

/-! ## Handle allocator

Modelled from the spec, §3 "Handle" and §4.1 "Handle Allocator":
a handle is `(index, generation)`; the allocator keeps an indirection
table of slots, each storing a generation, an occupancy bit and a
liveness (active) bit, plus a free list of slot indices.  `alloc`
reuses a freed slot's index but increments its generation; a handle is
valid iff its slot is occupied and the stored generation equals the
handle's generation. -/

/-- A generational handle: slot index plus generation counter. -/
structure Handle where
  index : Nat
  generation : Nat
deriving DecidableEq, Repr

/-- One slot of the allocator's indirection table. -/
structure Slot where
  generation : Nat
  occupied : Bool
  active : Bool
deriving DecidableEq, Repr

/-- Look up the `i`-th element of a slot list. -/
def slotAt? : List Slot → Nat → Option Slot
  | [], _ => none
  | s :: _, 0 => some s
  | _ :: rest, i + 1 => slotAt? rest i

/-- Apply `f` to the `i`-th element of a slot list, leaving the rest unchanged. -/
def updAt : List Slot → Nat → (Slot → Slot) → List Slot
  | [], _, _ => []
  | s :: rest, 0, f => f s :: rest
  | s :: rest, i + 1, f => s :: updAt rest i f

/-- Modelled from the spec: the handle allocator's state — the
indirection table (exclusively owned by the allocator) and the free
list of recycled slot indices. -/
structure HandleTable where
  slots : List Slot
  freeList : List Nat
deriving Repr

/-- Modelled from the spec: "a handle is valid iff the slot's stored
generation equals the handle's generation" and the slot is currently
occupied (between `free` and reuse the slot is unoccupied, so any
handle to it is invalid). -/
def handleValid (t : HandleTable) (h : Handle) : Bool :=
  match slotAt? t.slots h.index with
  | some s => s.occupied && s.generation == h.generation
  | none => false

/-- Modelled from the spec: the liveness bit queried by `active(handle)`;
only meaningful on a valid handle. -/
def handleActive (t : HandleTable) (h : Handle) : Bool :=
  match slotAt? t.slots h.index with
  | some s => s.occupied && s.generation == h.generation && s.active
  | none => false

/-- Modelled from the spec: `alloc` — O(1): pop a free-list index and
reuse that slot, incrementing its generation so stale handles compare
invalid; with no recycled slot available, append a fresh slot at
generation 0.  The new entity starts occupied and active. -/
def allocHT (t : HandleTable) : HandleTable × Handle :=
  match t.freeList with
  | i :: rest =>
    match slotAt? t.slots i with
    | some s =>
      ({ slots := updAt t.slots i (fun s0 =>
           { generation := s0.generation + 1, occupied := true, active := true }),
         freeList := rest },
       { index := i, generation := s.generation + 1 })
    | none =>
      ({ slots := t.slots ++ [{ generation := 0, occupied := true, active := true }],
         freeList := rest },
       { index := t.slots.length, generation := 0 })
  | [] =>
    ({ slots := t.slots ++ [{ generation := 0, occupied := true, active := true }],
       freeList := [] },
     { index := t.slots.length, generation := 0 })

/-- Modelled from the spec: `free(handle)` — a no-op if the handle is
already invalid (it "must never corrupt a newer occupant sharing the
slot"); otherwise mark the slot unoccupied and push its index on the
free list. -/
def freeHT (t : HandleTable) (h : Handle) : HandleTable :=
  if handleValid t h then
    { slots := updAt t.slots h.index (fun s => { s with occupied := false }),
      freeList := h.index :: t.freeList }
  else t

/-- Modelled from the spec: `activate`/`deactivate` toggle the liveness
bit independent of validity; a no-op on an invalid handle. -/
def setActiveHT (t : HandleTable) (h : Handle) (b : Bool) : HandleTable :=
  if handleValid t h then
    { t with slots := updAt t.slots h.index (fun s => { s with active := b }) }
  else t

/-- A handle is dead in a table when its slot's generation has moved past
it, or the slot sits unoccupied at a generation at least the handle's.
Once dead, no allocator operation revives the handle. -/
def deadH (t : HandleTable) (h : Handle) : Bool :=
  match slotAt? t.slots h.index with
  | some s => decide (h.generation < s.generation) ||
      (!s.occupied && decide (h.generation ≤ s.generation))
  | none => false

/-! ### Slot-list lemmas -/

theorem slotAt?_updAt_self (l : List Slot) (i : Nat) (f : Slot → Slot) :
    slotAt? (updAt l i f) i = (slotAt? l i).map f := by
  induction l generalizing i with
  | nil => simp [updAt, slotAt?]
  | cons s rest ih =>
    cases i with
    | zero => simp [updAt, slotAt?]
    | succ j => simpa [updAt, slotAt?] using ih j

theorem slotAt?_updAt_ne (l : List Slot) (i j : Nat) (f : Slot → Slot)
    (hij : j ≠ i) : slotAt? (updAt l i f) j = slotAt? l j := by
  induction l generalizing i j with
  | nil => simp [updAt]
  | cons s rest ih =>
    cases i with
    | zero =>
      cases j with
      | zero => exact absurd rfl hij
      | succ j' => simp [updAt, slotAt?]
    | succ i' =>
      cases j with
      | zero => simp [updAt, slotAt?]
      | succ j' =>
        have : j' ≠ i' := fun h => hij (by simp [h])
        simpa [updAt, slotAt?] using ih i' j' this

theorem slotAt?_append_lt (l l' : List Slot) (i : Nat) (hi : i < l.length) :
    slotAt? (l ++ l') i = slotAt? l i := by
  induction l generalizing i with
  | nil => exact absurd hi (by simp)
  | cons s rest ih =>
    cases i with
    | zero => simp [slotAt?]
    | succ j =>
      have : j < rest.length := Nat.lt_of_succ_lt_succ hi
      simpa [slotAt?] using ih j this

theorem slotAt?_isSome_of_lt (l : List Slot) (i : Nat) (hi : i < l.length) :
    (slotAt? l i).isSome := by
  induction l generalizing i with
  | nil => exact absurd hi (by simp)
  | cons s rest ih =>
    cases i with
    | zero => simp [slotAt?]
    | succ j => simpa [slotAt?] using ih j (Nat.lt_of_succ_lt_succ hi)

theorem lt_length_of_slotAt?_eq_some (l : List Slot) (i : Nat) (s : Slot)
    (h : slotAt? l i = some s) : i < l.length := by
  induction l generalizing i with
  | nil => simp [slotAt?] at h
  | cons s0 rest ih =>
    cases i with
    | zero => simp
    | succ j =>
      have := ih j (by simpa [slotAt?] using h)
      exact Nat.succ_lt_succ this

theorem slotAt?_append_self (l : List Slot) (s : Slot) :
    slotAt? (l ++ [s]) l.length = some s := by
  induction l with
  | nil => simp [slotAt?]
  | cons s0 rest ih => simpa [slotAt?] using ih

/-! ### Characterizations of validity and deadness -/

theorem handleValid_iff (t : HandleTable) (h : Handle) :
    handleValid t h = true ↔ ∃ s, slotAt? t.slots h.index = some s ∧
      s.occupied = true ∧ s.generation = h.generation := by
  unfold handleValid
  cases hs : slotAt? t.slots h.index with
  | none => simp
  | some s => simp

theorem deadH_iff (t : HandleTable) (h : Handle) :
    deadH t h = true ↔ ∃ s, slotAt? t.slots h.index = some s ∧
      (h.generation < s.generation ∨
        (s.occupied = false ∧ h.generation ≤ s.generation)) := by
  unfold deadH
  cases hs : slotAt? t.slots h.index with
  | none => simp
  | some s => simp [Bool.not_eq_true']

/-! ### Shape equations for allocator operations -/

theorem allocHT_eq_append (t : HandleTable)
    (hfl : t.freeList = []) :
    allocHT t =
      ({ slots := t.slots ++ [{ generation := 0, occupied := true, active := true }],
         freeList := [] },
       { index := t.slots.length, generation := 0 }) := by
  unfold allocHT
  rw [hfl]

theorem allocHT_eq_fresh (t : HandleTable) (i : Nat) (rest : List Nat)
    (hfl : t.freeList = i :: rest) (hsi : slotAt? t.slots i = none) :
    allocHT t =
      ({ slots := t.slots ++ [{ generation := 0, occupied := true, active := true }],
         freeList := rest },
       { index := t.slots.length, generation := 0 }) := by
  unfold allocHT
  rw [hfl]
  simp only [hsi]

theorem allocHT_eq_reuse (t : HandleTable) (i : Nat) (rest : List Nat) (si : Slot)
    (hfl : t.freeList = i :: rest) (hsi : slotAt? t.slots i = some si) :
    allocHT t =
      ({ slots := updAt t.slots i (fun s0 =>
           { generation := s0.generation + 1, occupied := true, active := true }),
         freeList := rest },
       { index := i, generation := si.generation + 1 }) := by
  unfold allocHT
  rw [hfl]
  simp only [hsi]

theorem freeHT_eq_pos (t : HandleTable) (h : Handle)
    (hv : handleValid t h = true) :
    freeHT t h =
      { slots := updAt t.slots h.index (fun s => { s with occupied := false }),
        freeList := h.index :: t.freeList } := by
  unfold freeHT
  rw [if_pos hv]

theorem freeHT_eq_neg (t : HandleTable) (h : Handle)
    (hv : ¬ handleValid t h = true) : freeHT t h = t := by
  unfold freeHT
  rw [if_neg hv]

theorem setActiveHT_eq_pos (t : HandleTable) (h : Handle) (b : Bool)
    (hv : handleValid t h = true) :
    setActiveHT t h b =
      { t with slots := updAt t.slots h.index (fun s => { s with active := b }) } := by
  unfold setActiveHT
  rw [if_pos hv]

theorem setActiveHT_eq_neg (t : HandleTable) (h : Handle) (b : Bool)
    (hv : ¬ handleValid t h = true) : setActiveHT t h b = t := by
  unfold setActiveHT
  rw [if_neg hv]

/-! ### Dead-handle preservation -/

theorem handleValid_eq_false_of_deadH (t : HandleTable) (h : Handle)
    (hd : deadH t h = true) : handleValid t h = false := by
  obtain ⟨s, hs, hcond⟩ := (deadH_iff t h).mp hd
  apply Bool.eq_false_iff.mpr
  intro hv
  obtain ⟨s', hs', hocc, hgen⟩ := (handleValid_iff t h).mp hv
  rw [hs] at hs'
  cases hs'
  rcases hcond with hlt | ⟨hocc', _⟩
  · exact Nat.lt_irrefl _ (hgen ▸ hlt)
  · rw [hocc] at hocc'; exact Bool.noConfusion hocc'

theorem deadH_allocHT (t : HandleTable) (h : Handle)
    (hd : deadH t h = true) : deadH (allocHT t).1 h = true := by
  obtain ⟨s, hs, hcond⟩ := (deadH_iff t h).mp hd
  have hlt := lt_length_of_slotAt?_eq_some _ _ _ hs
  rcases hfl : t.freeList with _ | ⟨i, rest⟩
  · rw [allocHT_eq_append t hfl]
    exact (deadH_iff _ h).mpr ⟨s, by rw [slotAt?_append_lt _ _ _ hlt]; exact hs, hcond⟩
  · rcases hsi : slotAt? t.slots i with _ | si
    · rw [allocHT_eq_fresh t i rest hfl hsi]
      exact (deadH_iff _ h).mpr ⟨s, by rw [slotAt?_append_lt _ _ _ hlt]; exact hs, hcond⟩
    · rw [allocHT_eq_reuse t i rest si hfl hsi]
      apply (deadH_iff _ h).mpr
      by_cases hidx : h.index = i
      · subst hidx
        rw [hs] at hsi
        cases hsi
        refine ⟨_, by rw [slotAt?_updAt_self, hs]; rfl, ?_⟩
        left
        rcases hcond with hlt' | ⟨_, hle⟩
        · exact Nat.lt_succ_of_lt hlt'
        · exact Nat.lt_succ_of_le hle
      · exact ⟨s, by rw [slotAt?_updAt_ne _ _ _ _ hidx]; exact hs, hcond⟩

theorem deadH_freeHT (t : HandleTable) (h h' : Handle)
    (hd : deadH t h = true) : deadH (freeHT t h') h = true := by
  obtain ⟨s, hs, hcond⟩ := (deadH_iff t h).mp hd
  by_cases hv : handleValid t h' = true
  · rw [freeHT_eq_pos t h' hv]
    apply (deadH_iff _ h).mpr
    by_cases hidx : h.index = h'.index
    · rw [hidx] at hs ⊢
      refine ⟨_, by rw [slotAt?_updAt_self, hs]; rfl, ?_⟩
      rcases hcond with hlt | ⟨_, hle⟩
      · right; exact ⟨rfl, Nat.le_of_lt hlt⟩
      · right; exact ⟨rfl, hle⟩
    · exact ⟨s, by rw [slotAt?_updAt_ne _ _ _ _ hidx]; exact hs, hcond⟩
  · rw [freeHT_eq_neg t h' hv]
    exact hd

theorem deadH_setActiveHT (t : HandleTable) (h h' : Handle) (b : Bool)
    (hd : deadH t h = true) : deadH (setActiveHT t h' b) h = true := by
  obtain ⟨s, hs, hcond⟩ := (deadH_iff t h).mp hd
  by_cases hv : handleValid t h' = true
  · rw [setActiveHT_eq_pos t h' b hv]
    apply (deadH_iff _ h).mpr
    by_cases hidx : h.index = h'.index
    · rw [hidx] at hs ⊢
      exact ⟨{ s with active := b }, by rw [slotAt?_updAt_self, hs]; rfl, hcond⟩
    · exact ⟨s, by rw [slotAt?_updAt_ne _ _ _ _ hidx]; exact hs, hcond⟩
  · rw [setActiveHT_eq_neg t h' b hv]
    exact hd

/-- Freeing a currently valid handle leaves it dead. -/
theorem deadH_freeHT_self (t : HandleTable) (h : Handle)
    (hv : handleValid t h = true) : deadH (freeHT t h) h = true := by
  obtain ⟨s, hs, hocc, hgen⟩ := (handleValid_iff t h).mp hv
  rw [freeHT_eq_pos t h hv]
  apply (deadH_iff _ h).mpr
  refine ⟨_, by rw [slotAt?_updAt_self, hs]; rfl, ?_⟩
  right
  exact ⟨rfl, Nat.le_of_eq hgen.symm⟩

/-- A freshly allocated handle is valid. -/
theorem handleValid_allocHT (t : HandleTable) :
    handleValid (allocHT t).1 (allocHT t).2 = true := by
  rcases hfl : t.freeList with _ | ⟨i, rest⟩
  · rw [allocHT_eq_append t hfl]
    exact (handleValid_iff _ _).mpr ⟨_, slotAt?_append_self _ _, rfl, rfl⟩
  · rcases hsi : slotAt? t.slots i with _ | si
    · rw [allocHT_eq_fresh t i rest hfl hsi]
      exact (handleValid_iff _ _).mpr ⟨_, slotAt?_append_self _ _, rfl, rfl⟩
    · rw [allocHT_eq_reuse t i rest si hfl hsi]
      apply (handleValid_iff _ _).mpr
      exact ⟨_, by rw [slotAt?_updAt_self, hsi]; rfl, rfl, rfl⟩

/-! ## Registries, worlds and entity lifecycle

Modelled from the spec, §3 "DATA MODEL" and §4.4 "World & Entity
Lifecycle".  The three registries are taken after their definition
phase (sealed records); component values are byte lists; each world
owns one row table per entity type, its own handle allocator instance
and the FIFO queue of pending delayed operations.  User callbacks
(component init/cleanup, system update) are modelled by an event trace
recording each invocation. -/

/-- A component value: its raw bytes. -/
abbrev Bytes := List Nat

/-- Modelled from the spec: a sealed component-type record — unique
name and byte size (the optional init/cleanup callbacks are recorded
through the event trace when invoked). -/
structure CompDef where
  name : String
  size : Nat
deriving DecidableEq, Repr

/-- Modelled from the spec: a sealed entity-type (archetype) record —
unique name and ordered list of component types. -/
structure EntityTypeDef where
  name : String
  comps : List String
deriving DecidableEq, Repr

/-- Modelled from the spec: a sealed system record — name and the
required component set used as the query predicate. -/
structure SystemDef where
  name : String
  reqs : List String
deriving DecidableEq, Repr

/-- Modelled from the spec: the three sealed registries; `systems` is
kept in definition order (the order of `cf_system_begin` calls). -/
structure Registry where
  comps : List CompDef
  etypes : List EntityTypeDef
  systems : List SystemDef
deriving Repr

/-- Byte size of a registered component type (0 when unknown). -/
def compSize (reg : Registry) (c : String) : Nat :=
  match reg.comps.find? (fun d => d.name == c) with
  | some d => d.size
  | none => 0

/-- Ordered component list of a registered entity type. -/
def typeComps (reg : Registry) (t : String) : List String :=
  match reg.etypes.find? (fun d => d.name == t) with
  | some d => d.comps
  | none => []

/-- Whether an entity type has been defined (sealed) in the registry. -/
def typeDefined (reg : Registry) (t : String) : Bool :=
  (reg.etypes.find? (fun d => d.name == t)).isSome

/-- Modelled from the spec: `CF_Entity` as issued by a world — the
generational handle plus the id of the world that issued it ("an
entity handle is only meaningful relative to the world that issued
it"). -/
structure Entity where
  handle : Handle
  wid : Nat
deriving DecidableEq, Repr

/-- One storage row: the owning entity handle and one value per
component column of the archetype. -/
structure Row where
  ent : Handle
  vals : List (String × Bytes)
deriving DecidableEq, Repr

/-- Modelled from the spec: one archetype storage table — named by its
entity type, rows packed in a list. -/
structure Table where
  tname : String
  rows : List Row
deriving DecidableEq, Repr

/-- Modelled from the spec: a pending delayed operation (destroy,
activate, deactivate or change-type with its target type). -/
inductive DelayedOp
  | destroy (e : Entity)
  | activate (e : Entity)
  | deactivate (e : Entity)
  | changeType (e : Entity) (t : String)
deriving DecidableEq, Repr

/-- Modelled from the spec: a world — its id, the entity handle
allocator instance, one table per entity type, and the FIFO queue of
pending delayed operations. -/
structure World where
  id : Nat
  ht : HandleTable
  tables : List Table
  delayed : List DelayedOp
deriving Repr

/-- A callback invocation recorded in the trace: a component's init
or cleanup callback ran for an entity, or a system's update callback
ran over one matching archetype batch. -/
inductive Event
  | compInit (comp : String) (h : Handle)
  | compCleanup (comp : String) (h : Handle)
  | sysUpdate (sys : String) (tname : String) (ents : List Handle)
deriving DecidableEq, Repr

/-- Concatenation of the images of `f` over a list. -/
def concatMap {α β : Type} (f : α → List β) : List α → List β
  | [] => []
  | x :: rest => f x ++ concatMap f rest

/-- Look up a component value in a row by component name. -/
def valLookup : List (String × Bytes) → String → Option Bytes
  | [], _ => none
  | (c', v) :: rest, c => if c' == c then some v else valLookup rest c

/-- Modelled from the spec: `cf_entity_is_valid` — the handle must
come from this world and its slot's stored generation must match. -/
def entityIsValid (w : World) (e : Entity) : Bool :=
  (e.wid == w.id) && handleValid w.ht e.handle

/-- Modelled from the spec: `cf_entity_is_active` — the liveness bit,
meaningful only on a valid handle of this world. -/
def entityIsActive (w : World) (e : Entity) : Bool :=
  (e.wid == w.id) && handleActive w.ht e.handle

/-- Append a row to the table of entity type `t`, creating the table
if this world holds none yet. -/
def addRowToTables : List Table → String → Row → List Table
  | [], t, r => [{ tname := t, rows := [r] }]
  | tb :: rest, t, r =>
    if tb.tname == t then { tb with rows := tb.rows ++ [r] } :: rest
    else tb :: addRowToTables rest t r

/-- Find the table name and row owned by handle `h`. -/
def findRow? : List Table → Handle → Option (String × Row)
  | [], _ => none
  | tb :: rest, h =>
    match tb.rows.find? (fun r => r.ent == h) with
    | some r => some (tb.tname, r)
    | none => findRow? rest h

/-- Modelled from the spec: swap-remove — move the last row into the
hole left by the removed row, keeping rows packed. -/
def swapRemove (rows : List Row) (h : Handle) : List Row :=
  match rows.findIdx? (fun r => r.ent == h) with
  | none => rows
  | some i =>
    match rows.getLast? with
    | none => rows
    | some lastRow =>
      if i + 1 = rows.length then rows.dropLast
      else rows.dropLast.set i lastRow

/-- Swap-remove the row owned by `h` from whichever table holds it. -/
def removeRowFromTables : List Table → Handle → List Table
  | [], _ => []
  | tb :: rest, h =>
    match tb.rows.find? (fun r => r.ent == h) with
    | some _ => { tb with rows := swapRemove tb.rows h } :: rest
    | none => tb :: removeRowFromTables rest h

/-- The freshly appended, zero-filled row of a new entity of type `t`. -/
def initRow (reg : Registry) (h : Handle) (t : String) : Row :=
  { ent := h, vals := (typeComps reg t).map (fun c => (c, List.replicate (compSize reg c) 0)) }

/-- Modelled from the spec: `cf_make_entity` — validates the entity
type is sealed, allocates a handle, appends one zero-filled row across
every column of that archetype's table and runs each component's init
callback.  The entity starts active.  Returns `none` for an unknown
type. -/
def makeEntity (reg : Registry) (w : World) (t : String) : World × Option Entity × List Event :=
  if typeDefined reg t then
    let p := allocHT w.ht
    ({ w with ht := p.1, tables := addRowToTables w.tables t (initRow reg p.2 t) },
     some { handle := p.2, wid := w.id },
     (typeComps reg t).map (fun c => Event.compInit c p.2))
  else (w, none, [])

/-- Modelled from the spec: `cf_destroy_entity` — validates the
handle (a no-op on an invalid or foreign handle), runs each
component's cleanup callback, swap-removes the row and frees the
handle. -/
def destroyEntity (w : World) (e : Entity) : World × List Event :=
  if entityIsValid w e then
    ({ w with
        ht := freeHT w.ht e.handle,
        tables := removeRowFromTables w.tables e.handle },
     match findRow? w.tables e.handle with
     | some p => p.2.vals.map (fun q => Event.compCleanup q.1 e.handle)
     | none => [])
  else (w, [])

/-- Modelled from the spec: `cf_entity_deactivate` — clears the
liveness bit via the handle allocator; storage is untouched. -/
def entityDeactivate (w : World) (e : Entity) : World :=
  if e.wid == w.id then { w with ht := setActiveHT w.ht e.handle false } else w

/-- Modelled from the spec: `cf_entity_activate` — sets the liveness
bit via the handle allocator. -/
def entityActivate (w : World) (e : Entity) : World :=
  if e.wid == w.id then { w with ht := setActiveHT w.ht e.handle true } else w

/-- Modelled from the spec: `cf_entity_has_component` — true iff the
handle is valid for this world and the entity's archetype has a column
of that component type. -/
def entityHasComponent (w : World) (e : Entity) (c : String) : Bool :=
  entityIsValid w e &&
    (match findRow? w.tables e.handle with
     | some p => (valLookup p.2.vals c).isSome
     | none => false)

/-- Modelled from the spec: `cf_entity_get_component` — the component
value for a valid handle of this world, `none` (a null pointer) on an
invalid or world-mismatched handle. -/
def entityGetComponent (w : World) (e : Entity) (c : String) : Option Bytes :=
  if entityIsValid w e then
    match findRow? w.tables e.handle with
    | some p => valLookup p.2.vals c
    | none => none
  else none

/-- The column values of a re-archetyped row: components present in
both the old row and the new type keep their old value, byte for byte;
components only in the new type start zero-filled. -/
def changedVals (reg : Registry) (vals : List (String × Bytes)) (newComps : List String) :
    List (String × Bytes) :=
  newComps.map (fun c =>
    match valLookup vals c with
    | some v => (c, v)
    | none => (c, List.replicate (compSize reg c) 0))

/-- The callback invocations of a type change: cleanup for every
component only in the old type, init for every component only in the
new type. -/
def changeEvents (h : Handle) (oldComps newComps : List String) : List Event :=
  (oldComps.filter (fun c => !(newComps.contains c))).map
      (fun c => Event.compCleanup c h) ++
    (newComps.filter (fun c => !(oldComps.contains c))).map
      (fun c => Event.compInit c h)

/-- Modelled from the spec: `cf_entity_change_type` — re-archetypes an
entity: components present in both types are copied by value into the
new table's row, components only in the old type run their cleanup
callback and are dropped, components only in the new type are newly
made and run their init callback; the old row is swap-removed. -/
def entityChangeType (reg : Registry) (w : World) (e : Entity) (t : String) :
    World × List Event :=
  if entityIsValid w e && typeDefined reg t then
    match findRow? w.tables e.handle with
    | some p =>
      ({ w with
          tables := addRowToTables (removeRowFromTables w.tables e.handle) t
            { ent := e.handle, vals := changedVals reg p.2.vals (typeComps reg t) } },
       changeEvents e.handle (p.2.vals.map Prod.fst) (typeComps reg t))
    | none => (w, [])
  else (w, [])

/-- Modelled from the spec: `cf_destroy_entity_delayed` — append a
destroy request to the FIFO queue of pending delayed operations. -/
def destroyEntityDelayed (w : World) (e : Entity) : World :=
  { w with delayed := w.delayed ++ [DelayedOp.destroy e] }

/-- Modelled from the spec: `cf_entity_delayed_activate`. -/
def entityDelayedActivate (w : World) (e : Entity) : World :=
  { w with delayed := w.delayed ++ [DelayedOp.activate e] }

/-- Modelled from the spec: `cf_entity_delayed_deactivate`. -/
def entityDelayedDeactivate (w : World) (e : Entity) : World :=
  { w with delayed := w.delayed ++ [DelayedOp.deactivate e] }

/-- Modelled from the spec: `cf_entity_delayed_change_type`. -/
def entityDelayedChangeType (w : World) (e : Entity) (t : String) : World :=
  { w with delayed := w.delayed ++ [DelayedOp.changeType e t] }

/-- Apply one pending delayed operation using the immediate variant's
logic. -/
def applyDelayed (reg : Registry) (w : World) : DelayedOp → World × List Event
  | .destroy e => destroyEntity w e
  | .activate e => (entityActivate w e, [])
  | .deactivate e => (entityDeactivate w e, [])
  | .changeType e t => entityChangeType reg w e t

/-- Apply a list of delayed operations front to back (FIFO). -/
def applyDelayedList (reg : Registry) (w : World) : List DelayedOp → World × List Event
  | [] => (w, [])
  | op :: rest =>
    let p := applyDelayed reg w op
    let q := applyDelayedList reg p.1 rest
    (q.1, p.2 ++ q.2)

/-- Modelled from the spec: the flush point — all queued delayed
operations are applied in the order they were queued, and the queue is
emptied. -/
def flushDelayed (reg : Registry) (w : World) : World × List Event :=
  applyDelayedList reg { w with delayed := [] } w.delayed

/-! ## Scheduler / query engine -/

/-- The rows of a table whose owning entity is active. -/
def activeRows (ht : HandleTable) (tb : Table) : List Row :=
  tb.rows.filter (fun r => handleActive ht r.ent)

/-- Modelled from the spec: archetype matching — an archetype matches
a system iff its component set is a superset of the system's required
set and the world holds at least one active entity of that
archetype. -/
def sysMatches (reg : Registry) (ht : HandleTable) (s : SystemDef) (tb : Table) : Bool :=
  s.reqs.all (fun c => (typeComps reg tb.tname).contains c) &&
    !(activeRows ht tb).isEmpty

/-- The observable behaviour of user update callbacks: given the
system's name, the matched archetype and the batch of active entity
handles, the callback queues some delayed operations (the contract
forbids immediate structural mutation from inside a callback). -/
abbrev UpdateBehavior := String → String → List Handle → List DelayedOp

/-- Run the given systems, in order, over the world's tables: each
system is invoked once per matching archetype with the batch of active
entities; the callbacks' delayed requests are collected in order. -/
def sysPass (reg : Registry) (cb : UpdateBehavior) (w : World) :
    List SystemDef → List DelayedOp × List Event
  | [] => ([], [])
  | s :: rest =>
    let batches := w.tables.filter (fun tb => sysMatches reg w.ht s tb)
    let ops := concatMap (fun tb => cb s.name tb.tname ((activeRows w.ht tb).map Row.ent)) batches
    let evs := batches.map (fun tb => Event.sysUpdate s.name tb.tname ((activeRows w.ht tb).map Row.ent))
    let q := sysPass reg cb w rest
    (ops ++ q.1, evs ++ q.2)

/-- The world state after every system of a tick has run but before
the flush point: storage is untouched, only the delayed queue has
grown by the callbacks' requests, in FIFO order. -/
def runSystemsPreFlush (reg : Registry) (cb : UpdateBehavior) (w : World) : World :=
  { w with delayed := w.delayed ++ (sysPass reg cb w reg.systems).1 }

/-- Modelled from the spec: `cf_run_systems` — iterate the sealed
systems in definition order, invoking each over every matching
archetype; then, after every system has run, apply all queued delayed
operations in FIFO order. -/
def runSystems (reg : Registry) (cb : UpdateBehavior) (w : World) : World × List Event :=
  let pre := runSystemsPreFlush reg cb w
  let q := flushDelayed reg pre
  (q.1, (sysPass reg cb w reg.systems).2 ++ q.2)

/-! ## World operations as a step relation (for temporal claims) -/

/-- One public ECS operation on a world. -/
inductive WOp
  | make (t : String)
  | destroy (e : Entity)
  | activate (e : Entity)
  | deactivate (e : Entity)
  | changeType (e : Entity) (t : String)
  | delayedDestroy (e : Entity)
  | delayedActivate (e : Entity)
  | delayedDeactivate (e : Entity)
  | delayedChange (e : Entity) (t : String)
  | runSys
deriving Repr

/-- Execute one public operation on a world. -/
def stepW (reg : Registry) (cb : UpdateBehavior) (w : World) : WOp → World
  | .make t => (makeEntity reg w t).1
  | .destroy e => (destroyEntity w e).1
  | .activate e => entityActivate w e
  | .deactivate e => entityDeactivate w e
  | .changeType e t => (entityChangeType reg w e t).1
  | .delayedDestroy e => destroyEntityDelayed w e
  | .delayedActivate e => entityDelayedActivate w e
  | .delayedDeactivate e => entityDelayedDeactivate w e
  | .delayedChange e t => entityDelayedChangeType w e t
  | .runSys => (runSystems reg cb w).1

/-- Execute a sequence of public operations front to back. -/
def stepsW (reg : Registry) (cb : UpdateBehavior) (w : World) : List WOp → World
  | [] => w
  | op :: rest => stepsW reg cb (stepW reg cb w op) rest

/-! ## Generic preservation machinery -/

/-- A property of handle tables closed under the three allocator
primitives (alloc, free, set-active). -/
def HtStable (P : HandleTable → Prop) : Prop :=
  (∀ t, P t → P (allocHT t).1) ∧
  (∀ t h', P t → P (freeHT t h')) ∧
  (∀ t h' b, P t → P (setActiveHT t h' b))

theorem entityChangeType_ht (reg : Registry) (w : World) (e : Entity) (t : String) :
    (entityChangeType reg w e t).1.ht = w.ht := by
  unfold entityChangeType
  split
  · split <;> rfl
  · rfl

theorem ht_makeEntity (P : HandleTable → Prop) (hP : HtStable P)
    (reg : Registry) (w : World) (t : String) (h : P w.ht) :
    P (makeEntity reg w t).1.ht := by
  unfold makeEntity
  split
  · exact hP.1 w.ht h
  · exact h

theorem ht_destroyEntity (P : HandleTable → Prop) (hP : HtStable P)
    (w : World) (e : Entity) (h : P w.ht) : P (destroyEntity w e).1.ht := by
  unfold destroyEntity
  split
  · exact hP.2.1 w.ht e.handle h
  · exact h

theorem ht_entityActivate (P : HandleTable → Prop) (hP : HtStable P)
    (w : World) (e : Entity) (h : P w.ht) : P (entityActivate w e).ht := by
  unfold entityActivate
  split
  · exact hP.2.2 w.ht e.handle true h
  · exact h

theorem ht_entityDeactivate (P : HandleTable → Prop) (hP : HtStable P)
    (w : World) (e : Entity) (h : P w.ht) : P (entityDeactivate w e).ht := by
  unfold entityDeactivate
  split
  · exact hP.2.2 w.ht e.handle false h
  · exact h

theorem ht_applyDelayed (P : HandleTable → Prop) (hP : HtStable P)
    (reg : Registry) (w : World) (op : DelayedOp) (h : P w.ht) :
    P (applyDelayed reg w op).1.ht := by
  cases op with
  | destroy e => exact ht_destroyEntity P hP w e h
  | activate e => exact ht_entityActivate P hP w e h
  | deactivate e => exact ht_entityDeactivate P hP w e h
  | changeType e t =>
    show P (entityChangeType reg w e t).1.ht
    rw [entityChangeType_ht]
    exact h

theorem ht_applyDelayedList (P : HandleTable → Prop) (hP : HtStable P)
    (reg : Registry) (l : List DelayedOp) :
    ∀ w : World, P w.ht → P (applyDelayedList reg w l).1.ht := by
  induction l with
  | nil => intro w h; exact h
  | cons op rest ih =>
    intro w h
    simp only [applyDelayedList]
    exact ih _ (ht_applyDelayed P hP reg w op h)

theorem ht_runSystems (P : HandleTable → Prop) (hP : HtStable P)
    (reg : Registry) (cb : UpdateBehavior) (w : World) (h : P w.ht) :
    P (runSystems reg cb w).1.ht := by
  unfold runSystems flushDelayed
  exact ht_applyDelayedList P hP reg _ _ h

theorem ht_stepW (P : HandleTable → Prop) (hP : HtStable P)
    (reg : Registry) (cb : UpdateBehavior) (w : World) (op : WOp) (h : P w.ht) :
    P (stepW reg cb w op).ht := by
  cases op with
  | make t => exact ht_makeEntity P hP reg w t h
  | destroy e => exact ht_destroyEntity P hP w e h
  | activate e => exact ht_entityActivate P hP w e h
  | deactivate e => exact ht_entityDeactivate P hP w e h
  | changeType e t =>
    show P (entityChangeType reg w e t).1.ht
    rw [entityChangeType_ht]; exact h
  | delayedDestroy e => exact h
  | delayedActivate e => exact h
  | delayedDeactivate e => exact h
  | delayedChange e t => exact h
  | runSys => exact ht_runSystems P hP reg cb w h

theorem ht_stepsW (P : HandleTable → Prop) (hP : HtStable P)
    (reg : Registry) (cb : UpdateBehavior) (l : List WOp) :
    ∀ w : World, P w.ht → P (stepsW reg cb w l).ht := by
  induction l with
  | nil => intro w h; exact h
  | cons op rest ih =>
    intro w h
    simp only [stepsW]
    exact ih _ (ht_stepW P hP reg cb w op h)

/-! ### World-id preservation -/

theorem makeEntity_id (reg : Registry) (w : World) (t : String) :
    (makeEntity reg w t).1.id = w.id := by
  unfold makeEntity; split <;> rfl

theorem destroyEntity_id (w : World) (e : Entity) :
    (destroyEntity w e).1.id = w.id := by
  unfold destroyEntity; split <;> rfl

theorem entityActivate_id (w : World) (e : Entity) :
    (entityActivate w e).id = w.id := by
  unfold entityActivate; split <;> rfl

theorem entityDeactivate_id (w : World) (e : Entity) :
    (entityDeactivate w e).id = w.id := by
  unfold entityDeactivate; split <;> rfl

theorem entityChangeType_id (reg : Registry) (w : World) (e : Entity) (t : String) :
    (entityChangeType reg w e t).1.id = w.id := by
  unfold entityChangeType
  split
  · split <;> rfl
  · rfl

theorem applyDelayed_id (reg : Registry) (w : World) (op : DelayedOp) :
    (applyDelayed reg w op).1.id = w.id := by
  cases op with
  | destroy e => exact destroyEntity_id w e
  | activate e => exact entityActivate_id w e
  | deactivate e => exact entityDeactivate_id w e
  | changeType e t => exact entityChangeType_id reg w e t

theorem applyDelayedList_id (reg : Registry) (l : List DelayedOp) :
    ∀ w : World, (applyDelayedList reg w l).1.id = w.id := by
  induction l with
  | nil => intro w; rfl
  | cons op rest ih =>
    intro w
    simp only [applyDelayedList]
    rw [ih, applyDelayed_id]

theorem runSystems_id (reg : Registry) (cb : UpdateBehavior) (w : World) :
    (runSystems reg cb w).1.id = w.id := by
  unfold runSystems flushDelayed
  rw [applyDelayedList_id]
  rfl

theorem stepW_id (reg : Registry) (cb : UpdateBehavior) (w : World) (op : WOp) :
    (stepW reg cb w op).id = w.id := by
  cases op with
  | make t => exact makeEntity_id reg w t
  | destroy e => exact destroyEntity_id w e
  | activate e => exact entityActivate_id w e
  | deactivate e => exact entityDeactivate_id w e
  | changeType e t => exact entityChangeType_id reg w e t
  | delayedDestroy e => rfl
  | delayedActivate e => rfl
  | delayedDeactivate e => rfl
  | delayedChange e t => rfl
  | runSys => exact runSystems_id reg cb w

theorem stepsW_id (reg : Registry) (cb : UpdateBehavior) (l : List WOp) :
    ∀ w : World, (stepsW reg cb w l).id = w.id := by
  induction l with
  | nil => intro w; rfl
  | cons op rest ih =>
    intro w
    simp only [stepsW]
    rw [ih, stepW_id]

/-! ### The valid-or-dead invariant -/

/-- A handle that has ever been issued is, at any later time, either
still valid or dead (never resurrectable). -/
def vdH (t : HandleTable) (h : Handle) : Prop :=
  handleValid t h = true ∨ deadH t h = true

theorem vdH_allocHT (t : HandleTable) (h : Handle) (hvd : vdH t h) :
    vdH (allocHT t).1 h := by
  rcases hvd with hv | hd
  · obtain ⟨s, hs, hocc, hgen⟩ := (handleValid_iff t h).mp hv
    have hlt := lt_length_of_slotAt?_eq_some _ _ _ hs
    rcases hfl : t.freeList with _ | ⟨i, rest⟩
    · left
      rw [allocHT_eq_append t hfl]
      exact (handleValid_iff _ _).mpr
        ⟨s, by rw [slotAt?_append_lt _ _ _ hlt]; exact hs, hocc, hgen⟩
    · rcases hsi : slotAt? t.slots i with _ | si
      · left
        rw [allocHT_eq_fresh t i rest hfl hsi]
        exact (handleValid_iff _ _).mpr
          ⟨s, by rw [slotAt?_append_lt _ _ _ hlt]; exact hs, hocc, hgen⟩
      · rw [allocHT_eq_reuse t i rest si hfl hsi]
        by_cases hidx : h.index = i
        · right
          subst hidx
          rw [hs] at hsi
          cases hsi
          apply (deadH_iff _ _).mpr
          refine ⟨_, by rw [slotAt?_updAt_self, hs]; rfl, ?_⟩
          left
          show h.generation < s.generation + 1
          omega
        · left
          exact (handleValid_iff _ _).mpr
            ⟨s, by rw [slotAt?_updAt_ne _ _ _ _ hidx]; exact hs, hocc, hgen⟩
  · right; exact deadH_allocHT t h hd

theorem vdH_freeHT (t : HandleTable) (h h' : Handle) (hvd : vdH t h) :
    vdH (freeHT t h') h := by
  rcases hvd with hv | hd
  · by_cases hv' : handleValid t h' = true
    · obtain ⟨s, hs, hocc, hgen⟩ := (handleValid_iff t h).mp hv
      rw [freeHT_eq_pos t h' hv']
      by_cases hidx : h.index = h'.index
      · right
        rw [hidx] at hs
        apply (deadH_iff _ _).mpr
        refine ⟨_, by rw [hidx, slotAt?_updAt_self, hs]; rfl, ?_⟩
        right
        refine ⟨rfl, ?_⟩
        show h.generation ≤ s.generation
        omega
      · left
        exact (handleValid_iff _ _).mpr
          ⟨s, by rw [slotAt?_updAt_ne _ _ _ _ hidx]; exact hs, hocc, hgen⟩
    · left
      rw [freeHT_eq_neg t h' hv']
      exact hv
  · right; exact deadH_freeHT t h h' hd

theorem vdH_setActiveHT (t : HandleTable) (h h' : Handle) (b : Bool)
    (hvd : vdH t h) : vdH (setActiveHT t h' b) h := by
  rcases hvd with hv | hd
  · left
    by_cases hv' : handleValid t h' = true
    · obtain ⟨s, hs, hocc, hgen⟩ := (handleValid_iff t h).mp hv
      rw [setActiveHT_eq_pos t h' b hv']
      by_cases hidx : h.index = h'.index
      · rw [hidx] at hs
        exact (handleValid_iff _ _).mpr
          ⟨{ s with active := b }, by rw [hidx, slotAt?_updAt_self, hs]; rfl, hocc, hgen⟩
      · exact (handleValid_iff _ _).mpr
          ⟨s, by rw [slotAt?_updAt_ne _ _ _ _ hidx]; exact hs, hocc, hgen⟩
    · rw [setActiveHT_eq_neg t h' b hv']
      exact hv
  · right; exact deadH_setActiveHT t h h' b hd

theorem htStable_dead (h : Handle) : HtStable (fun t => deadH t h = true) :=
  ⟨fun t => deadH_allocHT t h,
   fun t h' => deadH_freeHT t h h',
   fun t h' b => deadH_setActiveHT t h h' b⟩

theorem htStable_vd (h : Handle) : HtStable (fun t => vdH t h) :=
  ⟨fun t => vdH_allocHT t h,
   fun t h' => vdH_freeHT t h h',
   fun t h' b => vdH_setActiveHT t h h' b⟩

/-- After `destroyEntity` the handle of a world-matching entity is
dead whenever it was valid-or-dead before. -/
theorem deadH_destroyEntity_self (w : World) (e : Entity)
    (hw : e.wid = w.id) (hvd : vdH w.ht e.handle) :
    deadH (destroyEntity w e).1.ht e.handle = true := by
  unfold destroyEntity
  by_cases hv : entityIsValid w e = true
  · rw [if_pos hv]
    have hhv : handleValid w.ht e.handle = true := by
      unfold entityIsValid at hv
      exact (Bool.and_eq_true _ _).mp hv |>.2
    exact deadH_freeHT_self w.ht e.handle hhv
  · rw [if_neg hv]
    rcases hvd with hhv | hd
    · exfalso
      apply hv
      unfold entityIsValid
      rw [hhv, hw]
      simp
    · exact hd

/-! ## Shape equations for entity creation -/

theorem makeEntity_eq_pos (reg : Registry) (w : World) (t : String)
    (htd : typeDefined reg t = true) :
    makeEntity reg w t =
      ({ w with
          ht := (allocHT w.ht).1,
          tables := addRowToTables w.tables t (initRow reg (allocHT w.ht).2 t) },
       some { handle := (allocHT w.ht).2, wid := w.id },
       (typeComps reg t).map (fun c => Event.compInit c (allocHT w.ht).2)) := by
  unfold makeEntity
  rw [if_pos htd]

theorem makeEntity_eq_neg (reg : Registry) (w : World) (t : String)
    (htd : ¬ typeDefined reg t = true) :
    makeEntity reg w t = (w, none, []) := by
  unfold makeEntity
  rw [if_neg htd]

/-! ## Concrete fixtures for the closed examples -/

/-- A concrete sealed registry: three component types, two entity
types and two systems (in definition order S1, S2). -/
def reg0 : Registry :=
  { comps := [{ name := "Position", size := 2 },
              { name := "Health", size := 1 },
              { name := "Shield", size := 1 }],
    etypes := [{ name := "Player", comps := ["Position", "Health"] },
               { name := "EnemyWithShield", comps := ["Position", "Shield"] }],
    systems := [{ name := "S1", reqs := ["Position"] },
                { name := "S2", reqs := ["Position", "Health"] }] }

/-- Update callbacks that queue nothing. -/
def cb0 : UpdateBehavior := fun _ _ _ => []

/-- A freshly created empty world with id 1. -/
def w0 : World :=
  { id := 1, ht := { slots := [], freeList := [] }, tables := [], delayed := [] }

/-! ## C1 -/

/-- C1: For every handle returned by the entity allocator via
`cf_make_entity`, validity holds immediately after allocation; and
after the corresponding `cf_destroy_entity` — issued at any state
reachable by further public operations — validity is false forever
afterwards: no later sequence of operations, including allocations
that reuse the same slot index, ever makes the old handle compare
valid again. -/
theorem C1_make_destroy_validity
    (reg : Registry) (cb : UpdateBehavior) (w : World) (t : String) (e : Entity)
    (hmk : (makeEntity reg w t).2.1 = some e)
    (ops1 ops2 : List WOp) :
    entityIsValid (makeEntity reg w t).1 e = true ∧
    entityIsValid
      (stepsW reg cb
        ((destroyEntity (stepsW reg cb (makeEntity reg w t).1 ops1) e).1) ops2)
      e = false := by
  have htd : typeDefined reg t = true := by
    by_contra hnd
    rw [makeEntity_eq_neg reg w t hnd] at hmk
    simp at hmk
  rw [makeEntity_eq_pos reg w t htd] at hmk
  simp only [Option.some.injEq] at hmk
  have he : e = { handle := (allocHT w.ht).2, wid := w.id } := hmk.symm
  subst he
  refine ⟨?_, ?_⟩
  · rw [makeEntity_eq_pos reg w t htd]
    unfold entityIsValid
    simp [handleValid_allocHT]
  · have h1 : vdH (makeEntity reg w t).1.ht (allocHT w.ht).2 := by
      left
      rw [makeEntity_eq_pos reg w t htd]
      exact handleValid_allocHT w.ht
    have h2 : vdH (stepsW reg cb (makeEntity reg w t).1 ops1).ht (allocHT w.ht).2 :=
      ht_stepsW (fun ht => vdH ht (allocHT w.ht).2) (htStable_vd _) reg cb ops1 _ h1
    have hid2 : (stepsW reg cb (makeEntity reg w t).1 ops1).id = w.id := by
      rw [stepsW_id, makeEntity_id]
    have h3 : deadH
        (destroyEntity (stepsW reg cb (makeEntity reg w t).1 ops1)
          { handle := (allocHT w.ht).2, wid := w.id }).1.ht (allocHT w.ht).2 = true :=
      deadH_destroyEntity_self _ _ hid2.symm h2
    have h4 : deadH
        (stepsW reg cb
          ((destroyEntity (stepsW reg cb (makeEntity reg w t).1 ops1)
            { handle := (allocHT w.ht).2, wid := w.id }).1) ops2).ht (allocHT w.ht).2 = true :=
      ht_stepsW (fun ht => deadH ht (allocHT w.ht).2 = true) (htStable_dead _) reg cb ops2 _ h3
    unfold entityIsValid
    rw [handleValid_eq_false_of_deadH _ _ h4, Bool.and_false]

/-- Witness for C1: in a fresh world, make a "Player" entity (handle
slot 0 generation 0), destroy it, then make another "Player" — which
reuses slot 0 — and observe the original handle is still invalid. -/
theorem C1_make_destroy_validity_witness :
    entityIsValid (makeEntity reg0 w0 "Player").1
      { handle := { index := 0, generation := 0 }, wid := 1 } = true ∧
    entityIsValid
      (stepsW reg0 cb0
        ((destroyEntity (stepsW reg0 cb0 (makeEntity reg0 w0 "Player").1 [])
          { handle := { index := 0, generation := 0 }, wid := 1 }).1)
        [WOp.make "Player"])
      { handle := { index := 0, generation := 0 }, wid := 1 } = false :=
  C1_make_destroy_validity reg0 cb0 w0 "Player"
    { handle := { index := 0, generation := 0 }, wid := 1 }
    (by decide) [] [WOp.make "Player"]

/-! ## Header-level equality predicates

These are translated directly from `src/include/cute_ecs.h` (the two
`CF_INLINE` functions and the two invalid-value constants). -/

/-- Translated from the header: `typedef struct CF_Entity { CF_Handle handle; }`;
`CF_Handle` is a 64-bit value, represented canonically as a natural
number (it is only compared for equality here). -/
structure CF_Entity where
  handle : Nat
deriving DecidableEq, Repr

/-- Translated from the header: `typedef struct CF_World { uint64_t id; }`. -/
structure CF_World where
  id : Nat
deriving DecidableEq, Repr

/-- Modelled from the spec: `CF_INVALID_HANDLE` is defined in
`cute_handle_table.h`, which is not among the sources here; it is a
fixed 64-bit sentinel (the claims below do not depend on its exact
value). -/
def CF_INVALID_HANDLE : Nat := 2 ^ 64 - 1

/-- Translated from the header:
`static CF_Entity CF_INVALID_ENTITY = { CF_INVALID_HANDLE };` -/
def CF_INVALID_ENTITY : CF_Entity := { handle := CF_INVALID_HANDLE }

/-- Translated from the header: `static CF_World CF_INVALID_WORLD = { 0 };` -/
def CF_INVALID_WORLD : CF_World := { id := 0 }

/-- Translated from the header:
`bool cf_entity_equals(CF_Entity a, CF_Entity b) { return a.handle == b.handle; }` -/
def cf_entity_equals (a b : CF_Entity) : Bool := a.handle == b.handle

/-- Translated from the header:
`bool cf_world_equals(CF_World a, CF_World b) { return a.id == b.id; }` -/
def cf_world_equals (a b : CF_World) : Bool := a.id == b.id

/-! ## C10 -/

/-- C10: `cf_world_equals a b` is true iff `a.id = b.id` and
`cf_entity_equals a b` is true iff `a.handle = b.handle`; both
predicates are reflexive, symmetric and transitive; a world whose id
is 0 compares equal to `CF_INVALID_WORLD`, and an entity whose handle
equals `CF_INVALID_HANDLE` compares equal to `CF_INVALID_ENTITY`. -/
theorem C10_equality_predicates :
    (∀ a b : CF_World, cf_world_equals a b = true ↔ a.id = b.id) ∧
    (∀ a b : CF_Entity, cf_entity_equals a b = true ↔ a.handle = b.handle) ∧
    (∀ a : CF_World, cf_world_equals a a = true) ∧
    (∀ a b : CF_World, cf_world_equals a b = true → cf_world_equals b a = true) ∧
    (∀ a b c : CF_World, cf_world_equals a b = true → cf_world_equals b c = true →
      cf_world_equals a c = true) ∧
    (∀ a : CF_Entity, cf_entity_equals a a = true) ∧
    (∀ a b : CF_Entity, cf_entity_equals a b = true → cf_entity_equals b a = true) ∧
    (∀ a b c : CF_Entity, cf_entity_equals a b = true → cf_entity_equals b c = true →
      cf_entity_equals a c = true) ∧
    (∀ a : CF_World, a.id = 0 → cf_world_equals a CF_INVALID_WORLD = true) ∧
    (∀ a : CF_Entity, a.handle = CF_INVALID_HANDLE →
      cf_entity_equals a CF_INVALID_ENTITY = true) := by
  refine ⟨?_, ?_, ?_, ?_, ?_, ?_, ?_, ?_, ?_, ?_⟩
  · intro a b; simp [cf_world_equals]
  · intro a b; simp [cf_entity_equals]
  · intro a; simp [cf_world_equals]
  · intro a b h; simp [cf_world_equals] at *; omega
  · intro a b c hab hbc; simp [cf_world_equals] at *; omega
  · intro a; simp [cf_entity_equals]
  · intro a b h; simp [cf_entity_equals] at *; omega
  · intro a b c hab hbc; simp [cf_entity_equals] at *; omega
  · intro a h; simp [cf_world_equals, CF_INVALID_WORLD, h]
  · intro a h; simp [cf_entity_equals, CF_INVALID_ENTITY, h]

/-- Witness for C10: the invalid-value comparisons at concrete inputs. -/
theorem C10_equality_predicates_witness :
    cf_world_equals { id := 0 } CF_INVALID_WORLD = true ∧
    cf_entity_equals { handle := CF_INVALID_HANDLE } CF_INVALID_ENTITY = true :=
  ⟨C10_equality_predicates.2.2.2.2.2.2.2.2.1 { id := 0 } rfl,
   C10_equality_predicates.2.2.2.2.2.2.2.2.2 { handle := CF_INVALID_HANDLE } rfl⟩

/-! ## World stack (for C9) -/

/-- Modelled from the spec: the process-wide ECS context — the default
world, the stack of pushed worlds (the current world is the top of the
stack, or the default world when the stack is empty), and the data of
every live world, keyed by id. -/
structure EcsState where
  defaultWorld : CF_World
  worldStack : List CF_World
  worlds : List (Nat × World)
deriving Repr

/-- Modelled from the spec: the currently selected world — the top of
the stack, or the default world when nothing is pushed. -/
def currentWorld (s : EcsState) : CF_World :=
  match s.worldStack with
  | [] => s.defaultWorld
  | wtop :: _ => wtop

/-- Modelled from the spec: `cf_world_push` — push a world onto the
current-world stack. -/
def cf_world_push (s : EcsState) (w : CF_World) : EcsState :=
  { s with worldStack := w :: s.worldStack }

/-- Modelled from the spec: `cf_world_pop` — pop the current world and
restore the previous one; on an empty stack it restores/returns the
default world and reports a caller error (the returned flag), touching
no world's data.  Returns (new state, restored world, error?). -/
def cf_world_pop (s : EcsState) : EcsState × CF_World × Bool :=
  match s.worldStack with
  | [] => (s, s.defaultWorld, true)
  | _ :: rest =>
    ({ s with worldStack := rest }, currentWorld { s with worldStack := rest }, false)

/-! ## C9 -/

/-- C9: `cf_world_pop` on an empty world stack restores and returns
the default world, reports a caller-error diagnostic, leaves every
world's data untouched, and the current world afterwards is the
default world. -/
theorem C9_world_pop_empty_stack (s : EcsState) (hempty : s.worldStack = []) :
    (cf_world_pop s).2.1 = s.defaultWorld ∧
    (cf_world_pop s).2.2 = true ∧
    currentWorld (cf_world_pop s).1 = s.defaultWorld ∧
    (cf_world_pop s).1.worlds = s.worlds := by
  unfold cf_world_pop
  rw [hempty]
  exact ⟨rfl, rfl, by unfold currentWorld; rw [hempty], rfl⟩

/-- Witness for C9: popping a concrete empty-stack state. -/
theorem C9_world_pop_empty_stack_witness :
    (cf_world_pop { defaultWorld := { id := 7 }, worldStack := [], worlds := [(7, w0)] }).2.1
        = { id := 7 } ∧
    (cf_world_pop { defaultWorld := { id := 7 }, worldStack := [], worlds := [(7, w0)] }).2.2
        = true ∧
    currentWorld (cf_world_pop
        { defaultWorld := { id := 7 }, worldStack := [], worlds := [(7, w0)] }).1
        = { id := 7 } ∧
    (cf_world_pop { defaultWorld := { id := 7 }, worldStack := [], worlds := [(7, w0)] }).1.worlds
        = [(7, w0)] :=
  C9_world_pop_empty_stack
    { defaultWorld := { id := 7 }, worldStack := [], worlds := [(7, w0)] } rfl

/-! ## C8 -/

/-- C8: on an invalid or world-mismatched entity handle,
`cf_entity_get_component` returns a null pointer (`none`) and
`cf_entity_is_valid` returns false; both are pure failure results (the
world is not consulted for mutation, the model's operations return no
modified world), never a fatal error. -/
theorem C8_invalid_handle_failure (w : World) (e : Entity) (c : String)
    (hinv : e.wid ≠ w.id ∨ handleValid w.ht e.handle = false) :
    entityIsValid w e = false ∧ entityGetComponent w e c = none := by
  have hv : entityIsValid w e = false := by
    unfold entityIsValid
    rcases hinv with h | h
    · have hb : (e.wid == w.id) = false := by
        simp only [beq_eq_false_iff_ne, ne_eq]
        exact h
      rw [hb, Bool.false_and]
    · rw [h, Bool.and_false]
  refine ⟨hv, ?_⟩
  unfold entityGetComponent
  rw [hv]
  simp

/-- Witness for C8: a stale handle in a fresh world (slot never
allocated) and a world-mismatched handle both fail safely. -/
theorem C8_invalid_handle_failure_witness :
    ((0 : Nat) ≠ w0.id ∨ handleValid w0.ht { index := 0, generation := 0 } = false) ∧
    entityIsValid w0 { handle := { index := 0, generation := 0 }, wid := 0 } = false ∧
    entityGetComponent w0 { handle := { index := 0, generation := 0 }, wid := 0 } "Position"
      = none :=
  ⟨Or.inl (by decide),
   C8_invalid_handle_failure w0 { handle := { index := 0, generation := 0 }, wid := 0 }
     "Position" (Or.inl (by decide))⟩

/-! ## Trace machinery for the scheduler claims -/

/-- Project out the system name of an update event. -/
def updateName? : Event → Option String
  | .sysUpdate n _ _ => some n
  | _ => none

/-- Number of archetypes of `w` that system `s` matches. -/
def matchCount (reg : Registry) (w : World) (s : SystemDef) : Nat :=
  (w.tables.filter (fun tb => sysMatches reg w.ht s tb)).length

theorem filterMap_updateName_batch (n : String) (f1 : Table → String)
    (f2 : Table → List Handle) (l : List Table) :
    (l.map (fun tb => Event.sysUpdate n (f1 tb) (f2 tb))).filterMap updateName? =
      List.replicate l.length n := by
  induction l with
  | nil => rfl
  | cons x rest ih =>
    simp only [List.map_cons, List.filterMap_cons, updateName?, List.length_cons,
      List.replicate_succ]
    rw [ih]

theorem filterMap_updateName_cleanups {α : Type} (l : List α)
    (f1 : α → String) (f2 : α → Handle) :
    (l.map (fun x => Event.compCleanup (f1 x) (f2 x))).filterMap updateName? = [] := by
  induction l with
  | nil => rfl
  | cons x rest ih =>
    simp only [List.map_cons, List.filterMap_cons, updateName?]
    exact ih

theorem filterMap_updateName_inits {α : Type} (l : List α)
    (f1 : α → String) (f2 : α → Handle) :
    (l.map (fun x => Event.compInit (f1 x) (f2 x))).filterMap updateName? = [] := by
  induction l with
  | nil => rfl
  | cons x rest ih =>
    simp only [List.map_cons, List.filterMap_cons, updateName?]
    exact ih

theorem filterMap_updateName_destroyEntity (w : World) (e : Entity) :
    ((destroyEntity w e).2).filterMap updateName? = [] := by
  unfold destroyEntity
  split
  · split
    · exact filterMap_updateName_cleanups _ _ _
    · rfl
  · rfl

theorem filterMap_updateName_changeEvents (h : Handle) (oc nc : List String) :
    (changeEvents h oc nc).filterMap updateName? = [] := by
  unfold changeEvents
  rw [List.filterMap_append]
  rw [filterMap_updateName_cleanups, filterMap_updateName_inits]
  rfl

theorem filterMap_updateName_applyDelayed (reg : Registry) (w : World) (op : DelayedOp) :
    ((applyDelayed reg w op).2).filterMap updateName? = [] := by
  cases op with
  | destroy e => exact filterMap_updateName_destroyEntity w e
  | activate e => rfl
  | deactivate e => rfl
  | changeType e t =>
    show ((entityChangeType reg w e t).2).filterMap updateName? = []
    unfold entityChangeType
    split
    · split
      · exact filterMap_updateName_changeEvents _ _ _
      · rfl
    · rfl

theorem filterMap_updateName_applyDelayedList (reg : Registry) (l : List DelayedOp) :
    ∀ w : World, ((applyDelayedList reg w l).2).filterMap updateName? = [] := by
  induction l with
  | nil => intro w; rfl
  | cons op rest ih =>
    intro w
    simp only [applyDelayedList, List.filterMap_append]
    rw [filterMap_updateName_applyDelayed, ih]
    rfl

/-- The flush point produces only component-callback events, never a
system-update event. -/
theorem filterMap_updateName_flushDelayed (reg : Registry) (w : World) :
    ((flushDelayed reg w).2).filterMap updateName? = [] := by
  unfold flushDelayed
  exact filterMap_updateName_applyDelayedList reg _ _

/-- The trace of one `run_systems` call splits into the system-update
events of the pass followed by the flush's callback events. -/
theorem runSystems_trace (reg : Registry) (cb : UpdateBehavior) (w : World) :
    (runSystems reg cb w).2 =
      (sysPass reg cb w reg.systems).2 ++
        (flushDelayed reg (runSystemsPreFlush reg cb w)).2 := rfl

theorem filterMap_updateName_sysPass (reg : Registry) (cb : UpdateBehavior) (w : World) :
    ∀ ss : List SystemDef,
      ((sysPass reg cb w ss).2).filterMap updateName? =
        concatMap (fun s => List.replicate (matchCount reg w s) s.name) ss := by
  intro ss
  induction ss with
  | nil => rfl
  | cons s rest ih =>
    simp only [sysPass, List.filterMap_append, concatMap]
    rw [filterMap_updateName_batch s.name Table.tname
      (fun tb => (activeRows w.ht tb).map Row.ent)
      (w.tables.filter (fun tb => sysMatches reg w.ht s tb)), ih]
    rfl

/-! ## C4 -/

/-- C4: `cf_run_systems` invokes the update callbacks in exactly the
order the systems were defined: the sequence of system names in the
update-event trace is the definition-order list of systems, each
repeated once per matched archetype — for any world, hence identically
across repeated `cf_run_systems` calls (three systems defined in order
S1, S2, S3 always run as S1 then S2 then S3). -/
theorem C4_definition_order (reg : Registry) (cb : UpdateBehavior) (w : World) :
    ((runSystems reg cb w).2).filterMap updateName? =
      concatMap (fun s => List.replicate (matchCount reg w s) s.name) reg.systems := by
  rw [runSystems_trace, List.filterMap_append,
    filterMap_updateName_flushDelayed, filterMap_updateName_sysPass,
    List.append_nil]

/-- Membership characterization of update events during one system
pass: an update event appears iff some listed system matched some
table of the world with that batch. -/
theorem sysUpdate_mem_sysPass_iff (reg : Registry) (cb : UpdateBehavior) (w : World)
    (n tn : String) (ents : List Handle) :
    ∀ ss : List SystemDef,
      Event.sysUpdate n tn ents ∈ (sysPass reg cb w ss).2 ↔
        ∃ s ∈ ss, ∃ tb ∈ w.tables, sysMatches reg w.ht s tb = true ∧
          n = s.name ∧ tn = tb.tname ∧ ents = (activeRows w.ht tb).map Row.ent := by
  intro ss
  induction ss with
  | nil => simp [sysPass]
  | cons s rest ih =>
    simp only [sysPass, List.mem_append]
    constructor
    · rintro (hev | hev)
      · obtain ⟨tb, htb, heq⟩ := List.mem_map.mp hev
        obtain ⟨htbm, hmm⟩ := List.mem_filter.mp htb
        refine ⟨s, List.mem_cons_self _ _, tb, htbm, hmm, ?_, ?_, ?_⟩
        · exact congrArg (fun ev => match ev with
            | Event.sysUpdate m _ _ => m | _ => n) heq.symm
        · exact congrArg (fun ev => match ev with
            | Event.sysUpdate _ m _ => m | _ => tn) heq.symm
        · exact congrArg (fun ev => match ev with
            | Event.sysUpdate _ _ m => m | _ => ents) heq.symm
      · obtain ⟨s', hs', tb, htb, hm, hn, htn, hents⟩ := ih.mp hev
        exact ⟨s', List.mem_cons_of_mem _ hs', tb, htb, hm, hn, htn, hents⟩
    · rintro ⟨s', hs', tb, htb, hm, hn, htn, hents⟩
      rcases List.mem_cons.mp hs' with heq | hs'rest
      · left
        subst heq hn htn hents
        exact List.mem_map.mpr ⟨tb, List.mem_filter.mpr ⟨htb, hm⟩, rfl⟩
      · right
        exact ih.mpr ⟨s', hs'rest, tb, htb, hm, hn, htn, hents⟩

/-- No update event comes from the flush part of the trace. -/
theorem sysUpdate_not_mem_flush (reg : Registry) (w : World)
    (n tn : String) (ents : List Handle) :
    Event.sysUpdate n tn ents ∉ (flushDelayed reg w).2 := by
  intro hmem
  have h := filterMap_updateName_flushDelayed reg w
  rw [List.filterMap_eq_nil_iff] at h
  have := h _ hmem
  simp [updateName?] at this

/-! ## C2 -/

/-- C2: during `cf_run_systems`, a defined system `s` is run over a
table `tb` of the world (an update event for `(s, tb)` appears in the
trace) iff `tb`'s component set is a superset of `s`'s required
component set and the world contains at least one active entity of
that archetype.  System and table names are assumed unique, as the
registry's unique-name rule and the one-table-per-type layout
guarantee. -/
theorem C2_superset_matching (reg : Registry) (cb : UpdateBehavior) (w : World)
    (s : SystemDef) (tb : Table)
    (hs : s ∈ reg.systems) (htb : tb ∈ w.tables)
    (hnS : (reg.systems.map SystemDef.name).Nodup)
    (hnT : (w.tables.map Table.tname).Nodup) :
    (∃ ents, Event.sysUpdate s.name tb.tname ents ∈ (runSystems reg cb w).2) ↔
      (s.reqs.all (fun c => (typeComps reg tb.tname).contains c) = true ∧
        ∃ r ∈ tb.rows, handleActive w.ht r.ent = true) := by
  constructor
  · rintro ⟨ents, hmem⟩
    rw [runSystems_trace, List.mem_append] at hmem
    rcases hmem with hmem | hmem
    · obtain ⟨s', hs', tb', htb', hm, hn, htn, _⟩ :=
        (sysUpdate_mem_sysPass_iff reg cb w s.name tb.tname ents reg.systems).mp hmem
      have hss : s' = s := List.inj_on_of_nodup_map hnS hs' hs hn.symm
      have htt : tb' = tb := List.inj_on_of_nodup_map hnT htb' htb htn.symm
      rw [hss, htt] at hm
      unfold sysMatches at hm
      rw [Bool.and_eq_true] at hm
      refine ⟨hm.1, ?_⟩
      have hne : activeRows w.ht tb ≠ [] := by
        intro hnil
        rw [hnil] at hm
        simp at hm
      unfold activeRows at hne
      rcases List.exists_mem_of_ne_nil _ hne with ⟨r, hr⟩
      obtain ⟨hrmem, hract⟩ := List.mem_filter.mp hr
      exact ⟨r, hrmem, hract⟩
    · exact absurd hmem (sysUpdate_not_mem_flush reg _ _ _ _)
  · rintro ⟨hsup, r, hrmem, hract⟩
    refine ⟨(activeRows w.ht tb).map Row.ent, ?_⟩
    rw [runSystems_trace, List.mem_append]
    left
    apply (sysUpdate_mem_sysPass_iff reg cb w s.name tb.tname _ reg.systems).mpr
    refine ⟨s, hs, tb, htb, ?_, rfl, rfl, rfl⟩
    unfold sysMatches
    rw [Bool.and_eq_true]
    refine ⟨hsup, ?_⟩
    have : r ∈ activeRows w.ht tb := List.mem_filter.mpr ⟨hrmem, hract⟩
    cases hrows : activeRows w.ht tb with
    | nil => rw [hrows] at this; exact absurd this (List.not_mem_nil r)
    | cons a l => simp [hrows]

/-- The second system of `reg0`: requires Position and Health. -/
def s2 : SystemDef := { name := "S2", reqs := ["Position", "Health"] }

/-- The Player table of the world `(makeEntity reg0 w0 "Player").1`. -/
def playerTable1 : Table :=
  { tname := "Player", rows := [initRow reg0 { index := 0, generation := 0 } "Player"] }

/-- Witness for C2: in a world holding one active "Player" entity
(components Position and Health), system S2 (requires Position and
Health) runs over the Player table. -/
theorem C2_superset_matching_witness :
    (∃ ents, Event.sysUpdate "S2" "Player" ents ∈
      (runSystems reg0 cb0 (makeEntity reg0 w0 "Player").1).2) ↔
      (s2.reqs.all (fun c => (typeComps reg0 "Player").contains c) = true ∧
        ∃ r ∈ playerTable1.rows,
          handleActive (makeEntity reg0 w0 "Player").1.ht r.ent = true) :=
  C2_superset_matching reg0 cb0 (makeEntity reg0 w0 "Player").1 s2 playerTable1
    (by decide) (by decide) (by decide) (by decide)

/-! ## Activation lemmas (for C7) -/

/-- Toggling any liveness bit never changes validity of any handle. -/
theorem handleValid_setActiveHT (t : HandleTable) (h' : Handle) (b : Bool) (h : Handle) :
    handleValid (setActiveHT t h' b) h = handleValid t h := by
  by_cases hv' : handleValid t h' = true
  · rw [setActiveHT_eq_pos t h' b hv']
    by_cases hidx : h.index = h'.index
    · unfold handleValid
      simp only
      rw [hidx, slotAt?_updAt_self]
      cases hs : slotAt? t.slots h'.index with
      | none => rfl
      | some s => rfl
    · unfold handleValid
      simp only
      rw [slotAt?_updAt_ne _ _ _ _ hidx]
  · rw [setActiveHT_eq_neg t h' b hv']

/-- Setting the liveness bit of a valid handle makes its active flag
exactly that bit. -/
theorem handleActive_setActiveHT_self (t : HandleTable) (h : Handle) (b : Bool)
    (hv : handleValid t h = true) :
    handleActive (setActiveHT t h b) h = b := by
  obtain ⟨s, hs, hocc, hgen⟩ := (handleValid_iff t h).mp hv
  rw [setActiveHT_eq_pos t h b hv]
  unfold handleActive
  simp only
  rw [slotAt?_updAt_self, hs]
  simp [hocc, hgen]

theorem entityDeactivate_tables (w : World) (e : Entity) :
    (entityDeactivate w e).tables = w.tables := by
  unfold entityDeactivate; split <;> rfl

theorem entityActivate_tables (w : World) (e : Entity) :
    (entityActivate w e).tables = w.tables := by
  unfold entityActivate; split <;> rfl

/-! ## C7 -/

/-- C7: after `cf_entity_deactivate`, running the systems excludes the
entity from every update batch (so every `active_count` excludes it),
while the entity stays valid and directly resolvable
(`entity_has_component`, `entity_get_component` unchanged); after
`cf_entity_activate` it is included again in the batch of every system
whose requirements its archetype satisfies. -/
theorem C7_deactivate_excludes_activate_includes
    (reg : Registry) (cb : UpdateBehavior) (w : World) (e : Entity) (c : String)
    (hv : entityIsValid w e = true) :
    (∀ n tn ents, Event.sysUpdate n tn ents ∈ (runSystems reg cb (entityDeactivate w e)).2 →
      e.handle ∉ ents) ∧
    entityIsValid (entityDeactivate w e) e = true ∧
    entityHasComponent (entityDeactivate w e) e c = entityHasComponent w e c ∧
    entityGetComponent (entityDeactivate w e) e c = entityGetComponent w e c ∧
    (∀ s ∈ reg.systems, ∀ tb ∈ w.tables, ∀ r ∈ tb.rows, r.ent = e.handle →
      s.reqs.all (fun cc => (typeComps reg tb.tname).contains cc) = true →
      ∃ ents, Event.sysUpdate s.name tb.tname ents ∈
          (runSystems reg cb (entityActivate (entityDeactivate w e) e)).2 ∧
        e.handle ∈ ents) := by
  have hv0 := hv
  unfold entityIsValid at hv0
  rw [Bool.and_eq_true] at hv0
  obtain ⟨hwid, hhv⟩ := hv0
  have hdeq : entityDeactivate w e = { w with ht := setActiveHT w.ht e.handle false } := by
    unfold entityDeactivate
    rw [if_pos hwid]
  have hvd : handleValid (entityDeactivate w e).ht e.handle = true := by
    rw [hdeq]
    show handleValid (setActiveHT w.ht e.handle false) e.handle = true
    rw [handleValid_setActiveHT]
    exact hhv
  have hda : handleActive (entityDeactivate w e).ht e.handle = false := by
    rw [hdeq]
    exact handleActive_setActiveHT_self w.ht e.handle false hhv
  have hbv : entityIsValid (entityDeactivate w e) e = true := by
    unfold entityIsValid
    rw [Bool.and_eq_true, hvd]
    refine ⟨?_, rfl⟩
    rw [entityDeactivate_id]
    exact hwid
  refine ⟨?_, hbv, ?_, ?_, ?_⟩
  · intro n tn ents hmem hin
    rw [runSystems_trace, List.mem_append] at hmem
    rcases hmem with hmem | hmem
    · obtain ⟨s', _, tb', _, _, _, _, hents⟩ :=
        (sysUpdate_mem_sysPass_iff reg cb (entityDeactivate w e) n tn ents reg.systems).mp hmem
      subst hents
      obtain ⟨r, hr, hre⟩ := List.mem_map.mp hin
      obtain ⟨_, hract⟩ := List.mem_filter.mp hr
      rw [hre] at hract
      rw [hda] at hract
      exact Bool.noConfusion hract
    · exact absurd hmem (sysUpdate_not_mem_flush reg _ n tn ents)
  · unfold entityHasComponent
    rw [hbv, hv, entityDeactivate_tables]
  · unfold entityGetComponent
    rw [hbv, hv, entityDeactivate_tables]
  · intro s hs tb htb r hr hre hsup
    have haeq : entityActivate (entityDeactivate w e) e =
        { entityDeactivate w e with
            ht := setActiveHT (entityDeactivate w e).ht e.handle true } := by
      unfold entityActivate
      rw [if_pos (by rw [entityDeactivate_id]; exact hwid)]
    have hact : handleActive (entityActivate (entityDeactivate w e) e).ht e.handle = true := by
      rw [haeq]
      exact handleActive_setActiveHT_self _ e.handle true hvd
    have htab : (entityActivate (entityDeactivate w e) e).tables = w.tables := by
      rw [entityActivate_tables, entityDeactivate_tables]
    refine ⟨(activeRows (entityActivate (entityDeactivate w e) e).ht tb).map Row.ent, ?_, ?_⟩
    · rw [runSystems_trace, List.mem_append]
      left
      apply (sysUpdate_mem_sysPass_iff reg cb _ s.name tb.tname _ reg.systems).mpr
      refine ⟨s, hs, tb, by rw [htab]; exact htb, ?_, rfl, rfl, rfl⟩
      unfold sysMatches
      rw [Bool.and_eq_true]
      refine ⟨hsup, ?_⟩
      have hrmem : r ∈ activeRows (entityActivate (entityDeactivate w e) e).ht tb :=
        List.mem_filter.mpr ⟨hr, by rw [hre]; exact hact⟩
      cases hrows : activeRows (entityActivate (entityDeactivate w e) e).ht tb with
      | nil => rw [hrows] at hrmem; exact absurd hrmem (List.not_mem_nil r)
      | cons a l => simp [hrows]
    · exact List.mem_map.mpr ⟨r, List.mem_filter.mpr ⟨hr, by rw [hre]; exact hact⟩, hre⟩

/-! ## Destroy no-op and flush decomposition lemmas -/

theorem destroyEntity_eq_neg (w : World) (e : Entity)
    (h : ¬ entityIsValid w e = true) : destroyEntity w e = (w, []) := by
  unfold destroyEntity
  rw [if_neg h]

/-- Destroying an entity leaves its own handle invalid. -/
theorem entityIsValid_destroyEntity_self (w : World) (e : Entity) :
    entityIsValid (destroyEntity w e).1 e = false := by
  by_cases hv : entityIsValid w e = true
  · have hv0 := hv
    unfold entityIsValid at hv0
    rw [Bool.and_eq_true] at hv0
    have hd : deadH (destroyEntity w e).1.ht e.handle = true :=
      deadH_destroyEntity_self w e (by simpa using hv0.1) (Or.inl hv0.2)
    unfold entityIsValid
    rw [handleValid_eq_false_of_deadH _ _ hd, Bool.and_false]
  · rw [destroyEntity_eq_neg w e hv]
    rw [Bool.not_eq_true] at hv
    exact hv

/-- FIFO application distributes over queue concatenation. -/
theorem applyDelayedList_append (reg : Registry) (l1 l2 : List DelayedOp) :
    ∀ w : World, applyDelayedList reg w (l1 ++ l2) =
      ((applyDelayedList reg (applyDelayedList reg w l1).1 l2).1,
       (applyDelayedList reg w l1).2 ++
         (applyDelayedList reg (applyDelayedList reg w l1).1 l2).2) := by
  induction l1 with
  | nil => intro w; simp [applyDelayedList]
  | cons op rest ih =>
    intro w
    simp only [List.cons_append, applyDelayedList, List.append_eq]
    rw [ih]
    simp [List.append_assoc]

/-- A handle whose delayed destroy sits in the queue is invalid after
the whole queue is applied. -/
theorem deadH_applyDelayedList_of_mem (reg : Registry) (l : List DelayedOp) (e : Entity) :
    ∀ w : World, DelayedOp.destroy e ∈ l → e.wid = w.id → vdH w.ht e.handle →
      deadH (applyDelayedList reg w l).1.ht e.handle = true := by
  induction l with
  | nil => intro w hmem; exact absurd hmem (List.not_mem_nil _)
  | cons op rest ih =>
    intro w hmem hw hvd
    simp only [applyDelayedList]
    rcases List.mem_cons.mp hmem with heq | hmem'
    · subst heq
      have hdead : deadH (destroyEntity w e).1.ht e.handle = true :=
        deadH_destroyEntity_self w e hw hvd
      exact ht_applyDelayedList (fun t => deadH t e.handle = true)
        (htStable_dead _) reg rest _ hdead
    · have hvd' : vdH (applyDelayed reg w op).1.ht e.handle :=
        ht_applyDelayed (fun t => vdH t e.handle) (htStable_vd _) reg w op hvd
      have hw' : e.wid = (applyDelayed reg w op).1.id := by
        rw [applyDelayed_id]; exact hw
      exact ih _ hmem' hw' hvd'

/-! ## C6 -/

/-- C6: queueing `cf_destroy_entity_delayed` twice before the flush
point yields exactly the same flush result — same world and same
callback-event trace — as queueing it once: the destroy is applied
once, each cleanup callback runs once and the row is removed once. -/
theorem C6_delayed_destroy_idempotent (reg : Registry) (w : World) (e : Entity) :
    flushDelayed reg (destroyEntityDelayed (destroyEntityDelayed w e) e) =
      flushDelayed reg (destroyEntityDelayed w e) := by
  show applyDelayedList reg { w with delayed := [] }
      ((w.delayed ++ [DelayedOp.destroy e]) ++ [DelayedOp.destroy e]) =
    applyDelayedList reg { w with delayed := [] } (w.delayed ++ [DelayedOp.destroy e])
  rw [applyDelayedList_append reg (w.delayed ++ [DelayedOp.destroy e])
    [DelayedOp.destroy e] { w with delayed := [] }]
  have hinv : ¬ entityIsValid
      (applyDelayedList reg { w with delayed := [] }
        (w.delayed ++ [DelayedOp.destroy e])).1 e = true := by
    rw [applyDelayedList_append reg w.delayed [DelayedOp.destroy e] { w with delayed := [] }]
    simp only [applyDelayedList, applyDelayed]
    rw [entityIsValid_destroyEntity_self]
    simp
  simp only [applyDelayedList, applyDelayed]
  rw [destroyEntity_eq_neg _ e hinv]
  simp

/-- Witness for C6: double delayed destroy of the Player entity in the
concrete one-entity world flushes identically to a single one. -/
theorem C6_delayed_destroy_idempotent_witness :
    flushDelayed reg0
        (destroyEntityDelayed
          (destroyEntityDelayed (makeEntity reg0 w0 "Player").1
            { handle := { index := 0, generation := 0 }, wid := 1 })
          { handle := { index := 0, generation := 0 }, wid := 1 }) =
      flushDelayed reg0
        (destroyEntityDelayed (makeEntity reg0 w0 "Player").1
          { handle := { index := 0, generation := 0 }, wid := 1 }) :=
  C6_delayed_destroy_idempotent reg0 (makeEntity reg0 w0 "Player").1
    { handle := { index := 0, generation := 0 }, wid := 1 }

/-! ## C3 -/

/-- C3: a delayed destroy queued during a system's update callback
does not remove the entity's storage during that `cf_run_systems`
call: at the pre-flush point — after every system of the tick has run
— the entity is still resolvable (`entity_has_component` still true);
the queue at the flush point is the prior queue followed by all
requests queued during the tick, in the order they were queued, and
`cf_run_systems` finishes by applying exactly that queue front to back
(FIFO) — after which the destroyed entity is invalid before the next
tick begins. -/
theorem C3_delayed_destroy_deferred (reg : Registry) (cb : UpdateBehavior) (w : World)
    (e : Entity) (c : String)
    (hhc : entityHasComponent w e c = true)
    (hq : DelayedOp.destroy e ∈ (sysPass reg cb w reg.systems).1) :
    entityHasComponent (runSystemsPreFlush reg cb w) e c = true ∧
    (runSystemsPreFlush reg cb w).delayed =
      w.delayed ++ (sysPass reg cb w reg.systems).1 ∧
    (runSystems reg cb w).1 =
      (applyDelayedList reg { runSystemsPreFlush reg cb w with delayed := [] }
        ((runSystemsPreFlush reg cb w).delayed)).1 ∧
    entityIsValid (runSystems reg cb w).1 e = false := by
  have hv : entityIsValid w e = true := by
    unfold entityHasComponent at hhc
    rw [Bool.and_eq_true] at hhc
    exact hhc.1
  have hv0 := hv
  unfold entityIsValid at hv0
  rw [Bool.and_eq_true] at hv0
  refine ⟨?_, rfl, rfl, ?_⟩
  · exact hhc
  · have hmem : DelayedOp.destroy e ∈ (runSystemsPreFlush reg cb w).delayed := by
      show DelayedOp.destroy e ∈ w.delayed ++ (sysPass reg cb w reg.systems).1
      exact List.mem_append_right _ hq
    have hd : deadH (applyDelayedList reg
        { runSystemsPreFlush reg cb w with delayed := [] }
        ((runSystemsPreFlush reg cb w).delayed)).1.ht e.handle = true := by
      apply deadH_applyDelayedList_of_mem reg _ e _ hmem
      · show e.wid = w.id
        simpa using hv0.1
      · show vdH w.ht e.handle
        exact Or.inl hv0.2
    show entityIsValid (applyDelayedList reg
        { runSystemsPreFlush reg cb w with delayed := [] }
        ((runSystemsPreFlush reg cb w).delayed)).1 e = false
    unfold entityIsValid
    rw [handleValid_eq_false_of_deadH _ _ hd, Bool.and_false]

/-- Update callbacks that queue a delayed destroy of a fixed entity on
every invocation. -/
def cbDestroy (e : Entity) : UpdateBehavior := fun _ _ _ => [DelayedOp.destroy e]

/-- Witness for C3: the Player entity, delayed-destroyed from inside
the system callbacks, is still resolvable pre-flush and invalid after
the tick's flush. -/
theorem C3_delayed_destroy_deferred_witness :
    entityHasComponent
        (runSystemsPreFlush reg0
          (cbDestroy { handle := { index := 0, generation := 0 }, wid := 1 })
          (makeEntity reg0 w0 "Player").1)
        { handle := { index := 0, generation := 0 }, wid := 1 } "Position" = true ∧
    (runSystemsPreFlush reg0
        (cbDestroy { handle := { index := 0, generation := 0 }, wid := 1 })
        (makeEntity reg0 w0 "Player").1).delayed =
      (makeEntity reg0 w0 "Player").1.delayed ++
        (sysPass reg0 (cbDestroy { handle := { index := 0, generation := 0 }, wid := 1 })
          (makeEntity reg0 w0 "Player").1 reg0.systems).1 ∧
    (runSystems reg0 (cbDestroy { handle := { index := 0, generation := 0 }, wid := 1 })
        (makeEntity reg0 w0 "Player").1).1 =
      (applyDelayedList reg0
        { runSystemsPreFlush reg0
            (cbDestroy { handle := { index := 0, generation := 0 }, wid := 1 })
            (makeEntity reg0 w0 "Player").1 with delayed := [] }
        ((runSystemsPreFlush reg0
            (cbDestroy { handle := { index := 0, generation := 0 }, wid := 1 })
            (makeEntity reg0 w0 "Player").1).delayed)).1 ∧
    entityIsValid
        (runSystems reg0 (cbDestroy { handle := { index := 0, generation := 0 }, wid := 1 })
          (makeEntity reg0 w0 "Player").1).1
        { handle := { index := 0, generation := 0 }, wid := 1 } = false :=
  C3_delayed_destroy_deferred reg0
    (cbDestroy { handle := { index := 0, generation := 0 }, wid := 1 })
    (makeEntity reg0 w0 "Player").1
    { handle := { index := 0, generation := 0 }, wid := 1 } "Position"
    (by decide) (by decide)

/-- The entity handle issued by the first `makeEntity` call on `w0`. -/
def e1 : Entity := { handle := { index := 0, generation := 0 }, wid := 1 }

/-- The world `w0` after creating one "Player" entity. -/
def w1 : World := (makeEntity reg0 w0 "Player").1

/-- Witness for C7: deactivate the Player entity — updates exclude it
while it stays resolvable — then reactivate it and it is included
again. -/
theorem C7_deactivate_excludes_activate_includes_witness :
    (∀ n tn ents, Event.sysUpdate n tn ents ∈
        (runSystems reg0 cb0 (entityDeactivate w1 e1)).2 →
      e1.handle ∉ ents) ∧
    entityIsValid (entityDeactivate w1 e1) e1 = true ∧
    entityHasComponent (entityDeactivate w1 e1) e1 "Position" =
      entityHasComponent w1 e1 "Position" ∧
    entityGetComponent (entityDeactivate w1 e1) e1 "Position" =
      entityGetComponent w1 e1 "Position" ∧
    (∀ s ∈ reg0.systems, ∀ tb ∈ w1.tables, ∀ r ∈ tb.rows, r.ent = e1.handle →
      s.reqs.all (fun cc => (typeComps reg0 tb.tname).contains cc) = true →
      ∃ ents, Event.sysUpdate s.name tb.tname ents ∈
          (runSystems reg0 cb0 (entityActivate (entityDeactivate w1 e1) e1)).2 ∧
        e1.handle ∈ ents) :=
  C7_deactivate_excludes_activate_includes reg0 cb0 w1 e1 "Position" (by decide)

/-! ## Change-type lemmas (for C5) -/

theorem entityChangeType_eq_pos (reg : Registry) (w : World) (e : Entity) (t : String)
    (oldT : String) (r : Row)
    (hv : entityIsValid w e = true) (htd : typeDefined reg t = true)
    (hrow : findRow? w.tables e.handle = some (oldT, r)) :
    entityChangeType reg w e t =
      ({ w with
          tables := addRowToTables (removeRowFromTables w.tables e.handle) t
            { ent := e.handle, vals := changedVals reg r.vals (typeComps reg t) } },
       changeEvents e.handle (r.vals.map Prod.fst) (typeComps reg t)) := by
  unfold entityChangeType
  rw [hv, htd, hrow]
  rfl

/-- A component present in both the old row and the new type keeps its
exact bytes in the re-archetyped row. -/
theorem valLookup_changedVals (reg : Registry) (vals : List (String × Bytes))
    (c : String) (v : Bytes) (hl : valLookup vals c = some v) :
    ∀ ncs : List String, c ∈ ncs →
      valLookup (changedVals reg vals ncs) c = some v := by
  intro ncs
  induction ncs with
  | nil => intro hc; exact absurd hc (List.not_mem_nil c)
  | cons c' rest ih =>
    intro hc
    by_cases hcc : c' = c
    · subst hcc
      unfold changedVals
      rw [List.map_cons, hl]
      simp [valLookup]
    · unfold changedVals
      rw [List.map_cons]
      have hrest : c ∈ rest := by
        rcases List.mem_cons.mp hc with h | h
        · exact absurd h.symm hcc
        · exact h
      have hih := ih hrest
      unfold changedVals at hih
      cases hl' : valLookup vals c' with
      | some v' =>
        show valLookup ((c', v') :: _) c = some v
        unfold valLookup
        rw [if_neg (by simp [hcc])]
        exact hih
      | none =>
        show valLookup ((c', List.replicate (compSize reg c') 0) :: _) c = some v
        unfold valLookup
        rw [if_neg (by simp [hcc])]
        exact hih

/-- The cleanup callback of a dropped component runs exactly once. -/
theorem count_changeEvents_cleanup (h : Handle) (oldc newc : List String)
    (hn : oldc.Nodup) (c : String) (hco : c ∈ oldc) (hcn : c ∉ newc) :
    (changeEvents h oldc newc).count (Event.compCleanup c h) = 1 := by
  unfold changeEvents
  rw [List.count_append]
  have h1 : ((oldc.filter (fun x => !(newc.contains x))).map
        (fun x => Event.compCleanup x h)).count (Event.compCleanup c h) =
      (oldc.filter (fun x => !(newc.contains x))).count c :=
    List.count_map_of_injective (oldc.filter (fun x => !(newc.contains x)))
      (fun x => Event.compCleanup x h) (fun a b hab => by simpa using hab) c
  have h2 : (oldc.filter (fun x => !(newc.contains x))).count c = 1 := by
    apply List.count_eq_one_of_mem (hn.filter _)
    exact List.mem_filter.mpr ⟨hco, by simp [hcn]⟩
  have h3 : ((newc.filter (fun x => !(oldc.contains x))).map
        (fun x => Event.compInit x h)).count (Event.compCleanup c h) = 0 := by
    rw [List.count_eq_zero]
    intro hmem
    obtain ⟨x, _, hx⟩ := List.mem_map.mp hmem
    exact Event.noConfusion hx
  rw [h1, h2, h3]

/-- The init callback of a newly gained component runs exactly once. -/
theorem count_changeEvents_init (h : Handle) (oldc newc : List String)
    (hn : newc.Nodup) (c : String) (hcn : c ∈ newc) (hco : c ∉ oldc) :
    (changeEvents h oldc newc).count (Event.compInit c h) = 1 := by
  unfold changeEvents
  rw [List.count_append]
  have h1 : ((oldc.filter (fun x => !(newc.contains x))).map
        (fun x => Event.compCleanup x h)).count (Event.compInit c h) = 0 := by
    rw [List.count_eq_zero]
    intro hmem
    obtain ⟨x, _, hx⟩ := List.mem_map.mp hmem
    exact Event.noConfusion hx
  have h2 : ((newc.filter (fun x => !(oldc.contains x))).map
        (fun x => Event.compInit x h)).count (Event.compInit c h) =
      (newc.filter (fun x => !(oldc.contains x))).count c :=
    List.count_map_of_injective (newc.filter (fun x => !(oldc.contains x)))
      (fun x => Event.compInit x h) (fun a b hab => by simpa using hab) c
  have h3 : (newc.filter (fun x => !(oldc.contains x))).count c = 1 := by
    apply List.count_eq_one_of_mem (hn.filter _)
    exact List.mem_filter.mpr ⟨hcn, by simp [hco]⟩
  rw [h1, h2, h3]

/-! ## C5 -/

/-- C5: `cf_entity_change_type` on a valid entity re-archetypes it:
components present in both types are copied by value into the new
table's row (byte-for-byte), components only in the old type invoke
their cleanup callback exactly once, and components only in the new
type invoke their init callback exactly once; the entity's row moves
to the new type's table. -/
theorem C5_change_type_callbacks (reg : Registry) (w : World) (e : Entity) (t : String)
    (oldT : String) (r : Row)
    (hv : entityIsValid w e = true) (htd : typeDefined reg t = true)
    (hrow : findRow? w.tables e.handle = some (oldT, r))
    (hnOld : (r.vals.map Prod.fst).Nodup) (hnNew : (typeComps reg t).Nodup) :
    (entityChangeType reg w e t).2 =
      changeEvents e.handle (r.vals.map Prod.fst) (typeComps reg t) ∧
    (∀ c v, valLookup r.vals c = some v → c ∈ typeComps reg t →
      valLookup (changedVals reg r.vals (typeComps reg t)) c = some v) ∧
    (∀ c, c ∈ r.vals.map Prod.fst → c ∉ typeComps reg t →
      ((entityChangeType reg w e t).2).count (Event.compCleanup c e.handle) = 1) ∧
    (∀ c, c ∈ typeComps reg t → c ∉ r.vals.map Prod.fst →
      ((entityChangeType reg w e t).2).count (Event.compInit c e.handle) = 1) ∧
    (entityChangeType reg w e t).1.tables =
      addRowToTables (removeRowFromTables w.tables e.handle) t
        { ent := e.handle, vals := changedVals reg r.vals (typeComps reg t) } := by
  have heq := entityChangeType_eq_pos reg w e t oldT r hv htd hrow
  refine ⟨by rw [heq], ?_, ?_, ?_, by rw [heq]⟩
  · intro c v hl hc
    exact valLookup_changedVals reg r.vals c v hl _ hc
  · intro c hco hcn
    rw [heq]
    exact count_changeEvents_cleanup e.handle _ _ hnOld c hco hcn
  · intro c hcn hco
    rw [heq]
    exact count_changeEvents_init e.handle _ _ hnNew c hcn hco

/-- The Player row of the world `w1`. -/
def rowP : Row := initRow reg0 { index := 0, generation := 0 } "Player"

/-- Witness for C5: the spec's scenario — change the Player entity
({Position, Health}) to "EnemyWithShield" ({Position, Shield}):
Health's cleanup runs once, Position's bytes are preserved, Shield's
init runs once. -/
theorem C5_change_type_callbacks_witness :
    (entityChangeType reg0 w1 e1 "EnemyWithShield").2 =
      changeEvents e1.handle (rowP.vals.map Prod.fst) (typeComps reg0 "EnemyWithShield") ∧
    (∀ c v, valLookup rowP.vals c = some v → c ∈ typeComps reg0 "EnemyWithShield" →
      valLookup (changedVals reg0 rowP.vals (typeComps reg0 "EnemyWithShield")) c = some v) ∧
    (∀ c, c ∈ rowP.vals.map Prod.fst → c ∉ typeComps reg0 "EnemyWithShield" →
      ((entityChangeType reg0 w1 e1 "EnemyWithShield").2).count
        (Event.compCleanup c e1.handle) = 1) ∧
    (∀ c, c ∈ typeComps reg0 "EnemyWithShield" → c ∉ rowP.vals.map Prod.fst →
      ((entityChangeType reg0 w1 e1 "EnemyWithShield").2).count
        (Event.compInit c e1.handle) = 1) ∧
    (entityChangeType reg0 w1 e1 "EnemyWithShield").1.tables =
      addRowToTables (removeRowFromTables w1.tables e1.handle) "EnemyWithShield"
        { ent := e1.handle,
          vals := changedVals reg0 rowP.vals (typeComps reg0 "EnemyWithShield") } :=
  C5_change_type_callbacks reg0 w1 e1 "EnemyWithShield" "Player" rowP
    (by decide) (by decide) (by decide) (by decide) (by decide)

end CuteECS
